import Mathlib

/-!
Verification of the PDF-Text-Extractor web application (docs/script.js).

The development shallowly embeds the text-chunking, synthesis-orchestration
and PDF-extraction logic of `docs/script.js`.  Strings are modelled as
`List Char`; audio byte buffers as `List Nat`.
-/

namespace PDF2MP3

/-- Terminal sentence punctuation, the character class `[.!?]` of the
sentence regex `/[^.!?]+[.!?\n]*/g` in `chunkText`. -/
def isTerm (c : Char) : Bool :=
  c = '.' || c = '!' || c = '?'

/-- The trailing-terminator character class `[.!?\n]` of the sentence regex:
terminal punctuation or a newline. -/
def isTermNl (c : Char) : Bool :=
  isTerm c || c = '\n'

/-- Whitespace as removed by JavaScript `String.prototype.trim`
(ASCII whitespace and no-break space). -/
def isWs (c : Char) : Bool :=
  c = ' ' || c = '\t' || c = '\n' || c = '\r' ||
  c = '\x0b' || c = '\x0c' || c = ' '

/-- Scanner for the global regex match `text.match(/[^.!?]+[.!?\n]*/g)`.
`cur` is the unit matched so far; `inTerm` is `false` while inside the
`[^.!?]+` part and `true` while inside the `[.!?\n]*` part.  A terminal
character seen with an empty `cur` can start no match and is skipped,
exactly as the regex engine advances past positions where no match starts. -/
def splitAux (cur : List Char) (inTerm : Bool) : List Char → List (List Char)
  | [] => if cur.isEmpty then [] else [cur]
  | c :: cs =>
    if inTerm then
      if isTermNl c then splitAux (cur ++ [c]) true cs
      else cur :: splitAux [c] false cs
    else
      if isTerm c then
        if cur.isEmpty then splitAux [] false cs
        else splitAux (cur ++ [c]) true cs
      else splitAux (cur ++ [c]) false cs

/-- `text.match(/[^.!?]+[.!?\n]*/g) || []` from `chunkText`: the list of
sentence-like units of `text`. -/
def sentenceSplit (text : List Char) : List (List Char) :=
  splitAux [] false text

/-- JavaScript `String.prototype.trim`: strip whitespace from both ends. -/
def trim (s : List Char) : List Char :=
  (((s.dropWhile isWs).reverse).dropWhile isWs).reverse

/-- The loop body of `chunkText`: greedily accumulate sentence units into
`current`, flushing `current.trim()` whenever appending the next unit would
exceed `max`, and flushing a non-empty `current` at the end
(`if (current) chunks.push(current.trim())`). -/
def chunkLoop (max : Nat) : List (List Char) → List Char → List (List Char)
  | [], current => if current.isEmpty then [] else [trim current]
  | s :: rest, current =>
    if max < (current ++ s).length then
      trim current :: chunkLoop max rest s
    else
      chunkLoop max rest (current ++ s)

/-- `chunkText(text, max = 200)` from `docs/script.js`. -/
def chunkText (text : List Char) (max : Nat := 200) : List (List Char) :=
  chunkLoop max (sentenceSplit text) []

/-- All characters of the input that are not whitespace, in order; used to
compare texts "modulo whitespace differences". -/
def removeWs (s : List Char) : List Char :=
  s.filter (fun c => !isWs c)

/-- Convenience: the character list of a string literal. -/
def toL (s : String) : List Char :=
  s.data

/-- Outcome of one run of `textToMP3`: the chunks for which a fetch was
issued (in the order the fetches were awaited), the number of chunks whose
fetch completed successfully (the progress count), and the produced audio
artifact (`none` when the conversion aborted on a failed fetch). -/
structure TTSOutcome where
  calls : List (List Char)
  completed : Nat
  artifact : Option (List Nat)
  deriving Repr, DecidableEq

/-- The fetch loop of `textToMP3`.  A remote backend is a function from a
chunk to `some` audio bytes (a successful `fetchMP3`) or `none` (a network
error or non-ok HTTP status, which `fetchMP3` re-throws).  The loop awaits
each fetch in order, pushing the buffer and bumping the progress counter;
a thrown error propagates out of `textToMP3`, so the remaining chunks are
never fetched and no blob is assembled. -/
def ttsLoop (backend : List Char → Option (List Nat)) :
    List (List Char) → List (List Nat) → List (List Char) → Nat → TTSOutcome
  | [], buffers, calls, done => ⟨calls, done, some buffers.flatten⟩
  | c :: rest, buffers, calls, done =>
    match backend c with
    | some buf => ttsLoop backend rest (buffers ++ [buf]) (calls ++ [c]) (done + 1)
    | none => ⟨calls ++ [c], done, none⟩

/-- `textToMP3(text)` from `docs/script.js`: chunk the text with the default
`max = 200`, fetch each chunk's audio sequentially, and on success build the
final blob as the in-order concatenation of the buffers. -/
def textToMP3 (backend : List Char → Option (List Nat)) (text : List Char) :
    TTSOutcome :=
  ttsLoop backend (chunkText text 200) [] [] 0

/-- The host capabilities probed by `captureSpeech` and `speakBrowser`:
`navigator.mediaDevices`, `navigator.mediaDevices.getDisplayMedia`,
`window.MediaRecorder`, `'speechSynthesis' in window`, and whether an
attempted capture succeeds (the user may deny the screen-capture prompt). -/
structure Host where
  hasMediaDevices : Bool
  hasGetDisplayMedia : Bool
  hasMediaRecorder : Bool
  hasSpeechSynthesis : Bool
  captureOk : Bool
  deriving Repr, DecidableEq

/-- `captureSpeech(text, outputName)` from `docs/script.js`, reduced to its
success value: `false` when the capture APIs are missing, `false` when
`speakBrowser` returns `null` (no speech synthesis), otherwise the result of
the capture attempt. -/
def captureSpeech (h : Host) : Bool :=
  if !(h.hasMediaDevices && h.hasGetDisplayMedia && h.hasMediaRecorder) then
    false
  else if !h.hasSpeechSynthesis then
    false
  else
    h.captureOk

/-- What a call to `handleConvert` did: bailed out on empty input, produced
a locally captured artifact, or fell back to the remote `textToMP3` path. -/
inductive ConvertOutcome where
  | noInput : ConvertOutcome
  | localCapture : ConvertOutcome
  | remote : TTSOutcome → ConvertOutcome
  deriving Repr, DecidableEq

/-- `handleConvert()` from `docs/script.js`, with `text` the combined
trimmed textarea content and extracted PDF text: alert and return on empty
text, otherwise try `captureSpeech` and fall back to `textToMP3` when it
returns `false`. -/
def handleConvert (h : Host) (backend : List Char → Option (List Nat))
    (text : List Char) : ConvertOutcome :=
  if text.isEmpty then .noInput
  else if captureSpeech h then .localCapture
  else .remote (textToMP3 backend text)

/-- The PDF-parsing collaborator's view of a document, as used by
`extractTextFromPDF`: `pdf.numPages` and, for each page number, the `str`
payloads of `getTextContent().items` of `pdf.getPage(pageNum)`. -/
structure PDFDocument where
  numPages : Nat
  getPage : Nat → List (List Char)

/-- `strings.join(' ')`: the page's text items joined by a single space. -/
def joinSpace (items : List (List Char)) : List Char :=
  List.intercalate [' '] items

/-- `extractTextFromPDF(file)` from `docs/script.js`: iterate `pageNum`
from `1` to `pdf.numPages` and run `text += strings.join(' ') + '\n'`. -/
def extractTextFromPDF (pdf : PDFDocument) : List Char :=
  (List.range' 1 pdf.numPages).foldl
    (fun text p => text ++ joinSpace (pdf.getPage p) ++ ['\n']) []

/-- Modelled from the spec claim's words "joins the pages' texts with a
newline": the pages' texts, in ascending page order, interleaved with
single newline separators (no trailing newline).  Kept distinct from
`extractTextFromPDF`, which is translated from the code, so the two
readings can be compared. -/
def extractTextJoined (pdf : PDFDocument) : List Char :=
  List.intercalate ['\n']
    ((List.range' 1 pdf.numPages).map (fun p => joinSpace (pdf.getPage p)))

/-- Shape of a sentence unit produced by the regex
`/[^.!?]+[.!?\n]*/`: a non-empty body free of terminal punctuation,
followed by a run of terminal punctuation and newlines. -/
def unitShape (u : List Char) : Bool :=
  !(u.takeWhile (fun c => !isTerm c)).isEmpty &&
    (u.dropWhile (fun c => !isTerm c)).all isTermNl

theorem length_dropWhile_le (p : Char → Bool) (l : List Char) :
    (l.dropWhile p).length ≤ l.length :=
  (List.dropWhile_sublist p).length_le

theorem trim_length_le (s : List Char) : (trim s).length ≤ s.length := by
  have h1 := length_dropWhile_le isWs s
  have h2 := length_dropWhile_le isWs (s.dropWhile isWs).reverse
  simp only [trim, List.length_reverse] at *
  omega

theorem removeWs_nil : removeWs [] = [] := rfl

theorem removeWs_append (a b : List Char) :
    removeWs (a ++ b) = removeWs a ++ removeWs b := by
  simp [removeWs, List.filter_append]

theorem removeWs_dropWhile_isWs (s : List Char) :
    removeWs (s.dropWhile isWs) = removeWs s := by
  induction s with
  | nil => rfl
  | cons c cs ih =>
    simp only [List.dropWhile_cons]
    by_cases h : isWs c = true
    · simpa [removeWs, List.filter_cons, h] using ih
    · simp [h]

theorem removeWs_reverse (s : List Char) :
    removeWs s.reverse = (removeWs s).reverse := by
  simp [removeWs, List.filter_reverse]

theorem removeWs_trim (s : List Char) : removeWs (trim s) = removeWs s := by
  simp only [trim, removeWs_reverse, removeWs_dropWhile_isWs,
    List.reverse_reverse]

theorem splitAux_flatten_ne (l : List Char) :
    ∀ (cur : List Char) (inTerm : Bool), cur ≠ [] →
      (splitAux cur inTerm l).flatten = cur ++ l := by
  induction l with
  | nil =>
    intro cur inTerm hc
    simp [splitAux, List.isEmpty_iff, hc]
  | cons c cs ih =>
    intro cur inTerm hc
    cases inTerm with
    | true =>
      by_cases hN : isTermNl c = true
      · have := ih (cur ++ [c]) true (by simp)
        simp [splitAux, hN, this]
      · have := ih [c] false (by simp)
        simp [splitAux, hN, this]
    | false =>
      by_cases hI : isTerm c = true
      · have hne : cur.isEmpty = false := by simpa [List.isEmpty_iff] using hc
        have := ih (cur ++ [c]) true (by simp)
        simp [splitAux, hI, hne, this]
      · have := ih (cur ++ [c]) false (by simp)
        simp [splitAux, hI, this]

theorem sentenceSplit_flatten (text : List Char) :
    (sentenceSplit text).flatten = text.dropWhile isTerm := by
  induction text with
  | nil => rfl
  | cons c cs ih =>
    by_cases hI : isTerm c = true
    · show (splitAux [] false (c :: cs)).flatten = _
      simpa [splitAux, hI, List.dropWhile_cons] using ih
    · show (splitAux [] false (c :: cs)).flatten = _
      have := splitAux_flatten_ne cs [c] false (by simp)
      simp [splitAux, hI, List.dropWhile_cons, this]

theorem chunkLoop_flatten_removeWs (max : Nat) (units : List (List Char)) :
    ∀ current : List Char,
      removeWs (chunkLoop max units current).flatten =
        removeWs current ++ removeWs units.flatten := by
  induction units with
  | nil =>
    intro current
    by_cases h : current.isEmpty = true
    · have : current = [] := List.isEmpty_iff.mp h
      subst this
      simp [chunkLoop, removeWs]
    · simp [chunkLoop, h, removeWs_trim, removeWs_nil]
  | cons s rest ih =>
    intro current
    by_cases h : max < current.length + s.length
    · simp [chunkLoop, h, removeWs_append, removeWs_trim, ih s,
        List.append_assoc]
    · simp [chunkLoop, h, ih (current ++ s), removeWs_append,
        List.append_assoc]

theorem chunkLoop_length_le (max : Nat) (units : List (List Char)) :
    ∀ current : List Char, current.length ≤ max →
      (∀ u ∈ units, u.length ≤ max) →
      ∀ ch ∈ chunkLoop max units current, ch.length ≤ max := by
  induction units with
  | nil =>
    intro current hc _ ch hch
    by_cases h : current.isEmpty = true
    · simp [chunkLoop, h] at hch
    · simp [chunkLoop, h] at hch
      exact hch ▸ le_trans (trim_length_le current) hc
  | cons s rest ih =>
    intro current hc hall ch hch
    by_cases h : max < current.length + s.length
    · simp only [chunkLoop, List.length_append, if_pos h, List.mem_cons] at hch
      rcases hch with rfl | hch
      · exact le_trans (trim_length_le current) hc
      · exact ih s (hall s (by simp)) (fun u hu => hall u (by simp [hu])) ch hch
    · have hlen : (current ++ s).length ≤ max := by
        simp only [List.length_append]
        omega
      refine ih (current ++ s) hlen (fun u hu => hall u (by simp [hu])) ch ?_
      simpa [chunkLoop, h] using hch

/-- C1: for every input text and every maxSize >= 1, if no sentence-unit of
the input is longer than maxSize characters, then every chunk returned by
`chunkText text maxSize` has length at most maxSize. -/
theorem chunk_length_bounded (text : List Char) (max : Nat) (_hmax : 1 ≤ max)
    (h : ∀ u ∈ sentenceSplit text, u.length ≤ max) :
    (chunkText text max).all (fun ch => decide (ch.length ≤ max)) = true := by
  rw [List.all_eq_true]
  intro ch hch
  simpa using chunkLoop_length_le max (sentenceSplit text) [] (by simp) h ch hch

/-- Witness for C1 at the input "Hi. Yo." with maxSize 4: both sentence
units have length at most 4 and so does every returned chunk. -/
theorem chunk_length_bounded_witness :
    1 ≤ 4 ∧
    (sentenceSplit (toL "Hi. Yo.")).all (fun u => decide (u.length ≤ 4)) = true ∧
    (chunkText (toL "Hi. Yo.") 4).all (fun ch => decide (ch.length ≤ 4)) = true :=
  ⟨by decide, by decide,
    chunk_length_bounded (toL "Hi. Yo.") 4 (by decide) (by decide)⟩

/-- C2 fails as stated: on the input ".", the sentence regex finds no match
(a match must contain a character outside `[.!?]`), so `chunkText` returns
no chunks and the non-whitespace character '.' of the input is lost. -/
theorem chunk_concat_cex :
    removeWs (chunkText (toL ".") 200).flatten ≠ removeWs (toL ".") := by
  decide

/-- C2 (amended): concatenating all chunks of `chunkText text max`
reproduces, modulo whitespace, the input text after dropping its leading
run of terminal punctuation characters '.', '!', '?' (which the sentence
regex cannot match); in particular, for input not beginning with terminal
punctuation the original non-whitespace content is reproduced in order. -/
theorem chunk_concat_recovers (text : List Char) (max : Nat) :
    removeWs (chunkText text max).flatten =
      removeWs (text.dropWhile isTerm) := by
  unfold chunkText
  rw [chunkLoop_flatten_removeWs, sentenceSplit_flatten]
  rfl

/-- C9: the empty input yields zero chunks, for every maxSize. -/
theorem chunk_empty_input (max : Nat) : chunkText [] max = [] := rfl

theorem trim_nil : trim [] = [] := rfl

theorem all_isTermNl_dropWhile (b : List Char) (p : Char → Bool)
    (hb : b.all isTermNl = true) : (b.dropWhile p).all isTermNl = true := by
  rw [List.all_eq_true] at *
  intro x hx
  exact hb x ((List.dropWhile_sublist (l := b) p).subset hx)

theorem unitShape_append (a b : List Char) (ha : a ≠ [])
    (hall : a.all (fun c => !isTerm c) = true)
    (hb : b.all isTermNl = true) : unitShape (a ++ b) = true := by
  obtain ⟨a0, a', rfl⟩ := List.exists_cons_of_ne_nil ha
  rw [List.all_eq_true] at hall
  have hpa0 : (fun c => !isTerm c) a0 = true := hall a0 (by simp)
  have hda : a'.dropWhile (fun c => !isTerm c) = [] := by
    rw [List.dropWhile_eq_nil_iff]
    intro x hx
    exact hall x (by simp [hx])
  unfold unitShape
  rw [Bool.and_eq_true]
  constructor
  · simp [List.takeWhile_cons, hpa0]
  · rw [List.cons_append, List.dropWhile_cons, if_pos hpa0,
      List.dropWhile_append, hda]
    simpa using all_isTermNl_dropWhile b _ hb

theorem splitAux_unitShape (l : List Char) :
    ∀ (cur : List Char) (inTerm : Bool),
      (inTerm = false → cur.all (fun c => !isTerm c) = true) →
      (inTerm = true → ∃ a b, cur = a ++ b ∧ a ≠ [] ∧
        a.all (fun c => !isTerm c) = true ∧ b.all isTermNl = true) →
      ∀ u ∈ splitAux cur inTerm l, unitShape u = true := by
  induction l with
  | nil =>
    intro cur inTerm hbody hterm u hu
    by_cases hc : cur.isEmpty = true
    · simp [splitAux, hc] at hu
    · simp [splitAux, hc] at hu
      subst hu
      cases inTerm with
      | false =>
        have hne : u ≠ [] := by simpa [List.isEmpty_iff] using hc
        simpa using unitShape_append u [] hne (hbody rfl) (by simp)
      | true =>
        obtain ⟨a, b, rfl, ha, hA, hB⟩ := hterm rfl
        exact unitShape_append a b ha hA hB
  | cons c cs ih =>
    intro cur inTerm hbody hterm u hu
    cases inTerm with
    | true =>
      obtain ⟨a, b, hcur, ha, hA, hB⟩ := hterm rfl
      by_cases hN : isTermNl c = true
      · rw [show splitAux cur true (c :: cs) = splitAux (cur ++ [c]) true cs
            from by simp [splitAux, hN]] at hu
        refine ih (cur ++ [c]) true (fun h => by simp at h) ?_ u hu
        intro _
        exact ⟨a, b ++ [c], by simp [hcur], ha, hA,
          by simp [List.all_append, hB, hN]⟩
      · rw [show splitAux cur true (c :: cs) = cur :: splitAux [c] false cs
            from by simp [splitAux, hN]] at hu
        rcases List.mem_cons.mp hu with rfl | hu'
        · exact hcur ▸ unitShape_append a b ha hA hB
        · have hcI : isTerm c = false := by
            cases hI : isTerm c
            · rfl
            · exact absurd (by simp [isTermNl, hI]) hN
          exact ih [c] false (fun _ => by simp [hcI]) (fun h => by simp at h)
            u hu'
    | false =>
      by_cases hI : isTerm c = true
      · by_cases hc : cur.isEmpty = true
        · rw [show splitAux cur false (c :: cs) = splitAux [] false cs
              from by simp [splitAux, hI, hc]] at hu
          exact ih [] false (fun _ => by simp) (fun h => by simp at h) u hu
        · rw [show splitAux cur false (c :: cs) = splitAux (cur ++ [c]) true cs
              from by simp [splitAux, hI, hc]] at hu
          refine ih (cur ++ [c]) true (fun h => by simp at h) ?_ u hu
          intro _
          exact ⟨cur, [c], rfl, by simpa [List.isEmpty_iff] using hc,
            hbody rfl, by simp [isTermNl, hI]⟩
      · rw [show splitAux cur false (c :: cs) = splitAux (cur ++ [c]) false cs
            from by simp [splitAux, hI]] at hu
        exact ih (cur ++ [c]) false
          (fun _ => by simp [List.all_append, hbody rfl, hI])
          (fun h => by simp at h) u hu

/-- C6 fails as stated: a bare newline does not delimit sentence units.
On "a\nb" the regex `/[^.!?]+[.!?\n]*/g` matches the whole string as one
unit, because `[^.!?]` also matches a newline; the claimed split at the
newline does not happen. -/
theorem newline_boundary_cex :
    sentenceSplit (toL "a\nb") = [toL "a\nb"] ∧
    sentenceSplit (toL "a\nb") ≠ [toL "a\n", toL "b"] := by
  decide

/-- C6 (amended): `chunkText` splits the input into sentence-like units
consisting of a non-empty body containing no terminal punctuation '.', '!',
'?' followed by a run of terminal punctuation and newlines (the terminators
are included in the unit).  A newline can only terminate a unit as part of
such a run following terminal punctuation; a bare newline is absorbed into
the body and is not a sentence boundary. -/
theorem sentence_unit_shape (text : List Char) (u : List Char)
    (hu : u ∈ sentenceSplit text) : unitShape u = true :=
  splitAux_unitShape text [] false (fun _ => rfl) (fun h => by simp at h) u hu

/-- Witness for C6 (amended): the first unit of "Hi! Yo" is "Hi!", and it
has the body-then-terminators shape. -/
theorem sentence_unit_shape_witness :
    toL "Hi!" ∈ sentenceSplit (toL "Hi! Yo") ∧ unitShape (toL "Hi!") = true :=
  ⟨by decide, sentence_unit_shape (toL "Hi! Yo") (toL "Hi!") (by decide)⟩

/-- C3 fails as stated: on the single oversized sentence-unit "abcd" with
maxSize 2, `chunkText` does not return that sentence as one chunk — the
first loop iteration pushes the empty accumulator, so the result is
["", "abcd"], not ["abcd"]. -/
theorem oversized_sentence_cex :
    sentenceSplit (toL "abcd") = [toL "abcd"] ∧
    2 < (toL "abcd").length ∧
    chunkText (toL "abcd") 2 ≠ [toL "abcd"] := by
  decide

/-- C3 (amended): an input consisting of a single sentence-unit longer than
maxSize is emitted whole — never truncated or split mid-sentence — as one
trimmed chunk exceeding maxSize, preceded by one empty chunk. -/
theorem oversized_sentence_whole (text : List Char) (max : Nat)
    (s : List Char) (hs : sentenceSplit text = [s]) (hlong : max < s.length) :
    chunkText text max = [[], trim s] := by
  have hne : s.isEmpty = false := by
    cases s with
    | nil => simp at hlong
    | cons _ _ => rfl
  unfold chunkText
  rw [hs]
  simp [chunkLoop, hlong, hne, trim_nil]

/-- Witness for C3 (amended): "hello " is a single sentence-unit of length
6 > 3, and `chunkText` returns the empty chunk followed by the trimmed
sentence. -/
theorem oversized_sentence_whole_witness :
    sentenceSplit (toL "hello ") = [toL "hello "] ∧
    3 < (toL "hello ").length ∧
    chunkText (toL "hello ") 3 = [[], trim (toL "hello ")] :=
  ⟨by decide, by decide,
    oversized_sentence_whole (toL "hello ") 3 (toL "hello ")
      (by decide) (by decide)⟩

/-- C10: whenever the first sentence-unit alone already exceeds maxSize,
the first chunk returned by `chunkText` is the empty string, so the output
may contain empty-string chunks. -/
theorem first_chunk_empty_oversized (text : List Char) (max : Nat)
    (s : List Char) (rest : List (List Char))
    (hs : sentenceSplit text = s :: rest) (hlong : max < s.length) :
    (chunkText text max).head? = some [] := by
  unfold chunkText
  rw [hs]
  simp [chunkLoop, hlong, trim_nil]

/-- Witness for C10: "hello" is a single sentence-unit of length 5 > 3 and
the first chunk of `chunkText "hello" 3` is the empty string. -/
theorem first_chunk_empty_oversized_witness :
    sentenceSplit (toL "hello") = [toL "hello"] ∧
    3 < (toL "hello").length ∧
    (chunkText (toL "hello") 3).head? = some [] :=
  ⟨by decide, by decide,
    first_chunk_empty_oversized (toL "hello") 3 (toL "hello") []
      (by decide) (by decide)⟩

theorem ttsLoop_all_success (backend : List Char → Option (List Nat))
    (f : List Char → List Nat) :
    ∀ (chunks : List (List Char)) (buffers : List (List Nat))
      (calls : List (List Char)) (done : Nat),
      (∀ x ∈ chunks, backend x = some (f x)) →
      ttsLoop backend chunks buffers calls done =
        ⟨calls ++ chunks, done + chunks.length,
          some (buffers.flatten ++ (chunks.map f).flatten)⟩ := by
  intro chunks
  induction chunks with
  | nil =>
    intro buffers calls done _
    simp [ttsLoop]
  | cons c rest ih =>
    intro buffers calls done hall
    have hc : backend c = some (f c) := hall c (by simp)
    rw [show ttsLoop backend (c :: rest) buffers calls done =
        ttsLoop backend rest (buffers ++ [f c]) (calls ++ [c]) (done + 1)
      from by simp [ttsLoop, hc]]
    rw [ih (buffers ++ [f c]) (calls ++ [c]) (done + 1)
      (fun x hx => hall x (by simp [hx]))]
    simp [List.append_assoc]
    omega

theorem ttsLoop_fail (backend : List Char → Option (List Nat))
    (c : List Char) (hc : backend c = none) :
    ∀ (pre post : List (List Char)) (buffers : List (List Nat))
      (calls : List (List Char)) (done : Nat),
      (∀ x ∈ pre, ∃ b, backend x = some b) →
      ttsLoop backend (pre ++ c :: post) buffers calls done =
        ⟨calls ++ pre ++ [c], done + pre.length, none⟩ := by
  intro pre
  induction pre with
  | nil =>
    intro post buffers calls done _
    simp [ttsLoop, hc]
  | cons x pre' ih =>
    intro post buffers calls done hall
    obtain ⟨b, hb⟩ := hall x (by simp)
    rw [show ttsLoop backend ((x :: pre') ++ c :: post) buffers calls done =
        ttsLoop backend (pre' ++ c :: post) (buffers ++ [b]) (calls ++ [x])
          (done + 1)
      from by simp [ttsLoop, hb]]
    rw [ih post (buffers ++ [b]) (calls ++ [x]) (done + 1)
      (fun y hy => hall y (by simp [hy]))]
    simp [List.append_assoc]
    omega

/-- C4: when the remote backend succeeds on every chunk, `textToMP3`
fetches the chunks strictly sequentially in chunk order (the fetch trace
equals the chunk list) and the produced Audio Artifact is the in-order
concatenation of the per-chunk byte buffers. -/
theorem remote_success_concat (backend : List Char → Option (List Nat))
    (f : List Char → List Nat) (text : List Char)
    (h : ∀ x ∈ chunkText text 200, backend x = some (f x)) :
    (textToMP3 backend text).calls = chunkText text 200 ∧
    (textToMP3 backend text).artifact =
      some ((chunkText text 200).map f).flatten := by
  unfold textToMP3
  rw [ttsLoop_all_success backend f (chunkText text 200) [] [] 0 h]
  simp

/-- Witness for C4: with a backend returning the chunk's length as its one
byte, the conversion of "Hi. Go!" calls every chunk in order and
concatenates the buffers. -/
theorem remote_success_concat_witness :
    (chunkText (toL "Hi. Go!") 200).all
      (fun x => decide ((fun c : List Char => some [c.length]) x =
        some [x.length])) = true ∧
    (textToMP3 (fun c => some [c.length]) (toL "Hi. Go!")).calls =
      chunkText (toL "Hi. Go!") 200 ∧
    (textToMP3 (fun c => some [c.length]) (toL "Hi. Go!")).artifact =
      some ((chunkText (toL "Hi. Go!") 200).map
        (fun c => [c.length])).flatten :=
  ⟨by decide,
    remote_success_concat (fun c => some [c.length]) (fun c => [c.length])
      (toL "Hi. Go!") (fun x _ => rfl)⟩

/-- C5: when the fetch of some chunk fails and all earlier fetches
succeed, the conversion aborts: the failing chunk is the last one fetched
(no later chunk is fetched and there is no retry), no Audio Artifact is
produced, and the progress count stops at the number of chunks before the
failing one. -/
theorem remote_failure_aborts (backend : List Char → Option (List Nat))
    (text : List Char) (pre : List (List Char)) (c : List Char)
    (post : List (List Char))
    (hchunks : chunkText text 200 = pre ++ c :: post)
    (hpre : ∀ x ∈ pre, ∃ b, backend x = some b)
    (hc : backend c = none) :
    (textToMP3 backend text).artifact = none ∧
    (textToMP3 backend text).calls = pre ++ [c] ∧
    (textToMP3 backend text).completed = pre.length := by
  unfold textToMP3
  rw [hchunks, ttsLoop_fail backend c hc pre post [] [] 0 hpre]
  simp

set_option maxRecDepth 10000 in
/-- Witness for C5: the 202-character input splits into a 200-character
first chunk of letters 'a' and the chunk "b."; a backend failing exactly
on chunks containing 'b' aborts after fetching both, with one completed
chunk and no artifact. -/
theorem remote_failure_aborts_witness :
    chunkText (List.replicate 199 'a' ++ toL ".b.") 200 =
      [List.replicate 199 'a' ++ ['.'], toL "b."] ∧
    (textToMP3 (fun x => if 'b' ∈ x then none else some [x.length])
      (List.replicate 199 'a' ++ toL ".b.")).artifact = none ∧
    (textToMP3 (fun x => if 'b' ∈ x then none else some [x.length])
      (List.replicate 199 'a' ++ toL ".b.")).calls =
        [List.replicate 199 'a' ++ ['.']] ++ [toL "b."] ∧
    (textToMP3 (fun x => if 'b' ∈ x then none else some [x.length])
      (List.replicate 199 'a' ++ toL ".b.")).completed =
        [List.replicate 199 'a' ++ ['.']].length :=
  ⟨by decide,
    remote_failure_aborts (fun x => if 'b' ∈ x then none else some [x.length])
      (List.replicate 199 'a' ++ toL ".b.")
      [List.replicate 199 'a' ++ ['.']] (toL "b.") []
      (by decide)
      (fun x hx => by
        simp only [List.mem_singleton] at hx
        subst hx
        exact ⟨[200], by decide⟩)
      (by decide)⟩

/-- C7: when the Local-Voice Strategy is unavailable — any of the capture
APIs or speech synthesis is missing — `handleConvert` always falls back to
the Remote-Fetch path, and when every remote call succeeds an Audio
Artifact is still produced. -/
theorem local_unavailable_fallback (h : Host)
    (backend : List Char → Option (List Nat)) (f : List Char → List Nat)
    (text : List Char) (htext : text ≠ [])
    (hunavail : h.hasMediaDevices = false ∨ h.hasGetDisplayMedia = false ∨
      h.hasMediaRecorder = false ∨ h.hasSpeechSynthesis = false)
    (hok : ∀ x ∈ chunkText text 200, backend x = some (f x)) :
    handleConvert h backend text = .remote (textToMP3 backend text) ∧
    (textToMP3 backend text).artifact.isSome = true := by
  have hcap : captureSpeech h = false := by
    rcases hunavail with h1 | h1 | h1 | h1 <;> simp [captureSpeech, h1]
  have hne : text.isEmpty = false := by simpa [List.isEmpty_iff] using htext
  constructor
  · simp [handleConvert, hne, hcap]
  · unfold textToMP3
    rw [ttsLoop_all_success backend f (chunkText text 200) [] [] 0 hok]
    rfl

/-- Witness for C7: a host with no MediaRecorder (though speech synthesis
is present) falls back to the remote path on "Ok." and gets an artifact. -/
theorem local_unavailable_fallback_witness :
    toL "Ok." ≠ [] ∧
    (Host.mk true true false true true).hasMediaRecorder = false ∧
    handleConvert (Host.mk true true false true true)
        (fun _ => some [7]) (toL "Ok.") =
      ConvertOutcome.remote (textToMP3 (fun _ => some [7]) (toL "Ok.")) ∧
    (textToMP3 (fun _ => some [7]) (toL "Ok.")).artifact.isSome = true :=
  ⟨by decide, rfl,
    local_unavailable_fallback (Host.mk true true false true true)
      (fun _ => some [7]) (fun _ => [7]) (toL "Ok.") (by decide)
      (Or.inr (Or.inr (Or.inl rfl))) (fun x _ => rfl)⟩

theorem foldl_append_flatten (g : Nat → List Char) (l : List Nat) :
    ∀ init : List Char,
      l.foldl (fun acc p => acc ++ g p ++ ['\n']) init =
        init ++ (l.map (fun p => g p ++ ['\n'])).flatten := by
  induction l with
  | nil =>
    intro init
    simp
  | cons x xs ih =>
    intro init
    rw [List.foldl_cons, ih (init ++ g x ++ ['\n'])]
    simp [List.append_assoc]

theorem flatten_map_newline (ts : List (List Char)) (hts : ts ≠ []) :
    (ts.map (fun t => t ++ ['\n'])).flatten =
      List.intercalate ['\n'] ts ++ ['\n'] := by
  induction ts with
  | nil => exact absurd rfl hts
  | cons t ts' ih =>
    cases ts' with
    | nil => simp [List.intercalate]
    | cons t2 ts'' =>
      rw [List.map_cons, List.flatten_cons, ih (by simp)]
      simp only [List.intercalate, List.intersperse_cons_cons,
        List.flatten_cons]
      simp [List.append_assoc]

/-- C8 fails as stated: the code appends a newline after every page's
text, including the last, rather than joining the pages' texts with
newline separators; on a one-page document the results differ by the
trailing newline. -/
theorem page_join_cex :
    extractTextFromPDF ⟨1, fun _ => [toL "a"]⟩ = toL "a" ++ ['\n'] ∧
    extractTextFromPDF ⟨1, fun _ => [toL "a"]⟩ ≠
      extractTextJoined ⟨1, fun _ => [toL "a"]⟩ := by
  constructor
  · decide
  · decide

/-- C8 (amended): `extractTextFromPDF` visits pages in ascending
page-number order from 1 to numPages, joins each page's text items with a
single space, and appends a newline after each page's text — so for a
non-empty document the result is the pages' texts joined by newlines with
one trailing newline. -/
theorem extract_pages_newline (pdf : PDFDocument) (hp : 1 ≤ pdf.numPages) :
    extractTextFromPDF pdf = extractTextJoined pdf ++ ['\n'] := by
  unfold extractTextFromPDF extractTextJoined
  rw [foldl_append_flatten (fun p => joinSpace (pdf.getPage p))
    (List.range' 1 pdf.numPages) []]
  rw [show (List.range' 1 pdf.numPages).map
        (fun p => joinSpace (pdf.getPage p) ++ ['\n']) =
      ((List.range' 1 pdf.numPages).map
        (fun p => joinSpace (pdf.getPage p))).map (fun t => t ++ ['\n'])
    from by simp [List.map_map, Function.comp]]
  rw [flatten_map_newline _ (by
    intro hnil
    rw [List.map_eq_nil_iff] at hnil
    have : pdf.numPages = 0 := by simpa using congrArg List.length hnil
    omega)]
  simp

/-- Witness for C8 (amended) on a two-page document: page 1 has items
"ab", "c" and page 2 has item "d"; the extracted text is
"ab c" ++ newline ++ "d" ++ newline. -/
theorem extract_pages_newline_witness :
    1 ≤ (PDFDocument.mk 2
      (fun p => if p = 1 then [toL "ab", toL "c"] else [toL "d"])).numPages ∧
    extractTextFromPDF (PDFDocument.mk 2
        (fun p => if p = 1 then [toL "ab", toL "c"] else [toL "d"])) =
      extractTextJoined (PDFDocument.mk 2
        (fun p => if p = 1 then [toL "ab", toL "c"] else [toL "d"])) ++
        ['\n'] :=
  ⟨by decide,
    extract_pages_newline (PDFDocument.mk 2
      (fun p => if p = 1 then [toL "ab", toL "c"] else [toL "d"]))
      (by decide)⟩

end PDF2MP3
